import Mathlib

/-!
Shallow embedding of the batch input downloader of yadv: `fetch_inputs`
from src/api.rs, and `download_inputs` together with the credential
precondition of `main` from src/bin/yaadv.rs.  The network is modelled by
an oracle assigning each identifier the outcome of its single HTTP
request; the filesystem is a value recording directories and files.
Runs additionally return the trace of external events (requests,
directory creation, file writes) so that ordering properties can be
stated and checked.
-/

deriving instance DecidableEq for Except

namespace Yadv

/-- An input identifier.  `AdvInput` lives in the repo's `inputs` module,
which is not under src/; its fields follow the spec's data model:
an immutable value with a year and a day. -/
structure AdvInput where
  day : Nat
  year : Int
deriving DecidableEq, Repr

/-- Modelled from the spec: the repo's `inputs` module (missing from src/)
derives a canonical local file path `<base-dir>/<year>/<day>/input.txt`.
Paths are modelled as lists of components. -/
def AdvInput.path (i : AdvInput) : List String :=
  ["inputs", toString i.year, toString i.day, "input.txt"]

/-- Modelled from the spec: the canonical request URL
`<fixed-base-url>/<year>/day/<day>/input` of the `inputs` module
(missing from src/). -/
def AdvInput.request_url (i : AdvInput) : String :=
  "https://adventofcode.com/" ++ toString i.year ++ "/day/" ++
    toString i.day ++ "/input"

/-- Outcome of one HTTP exchange as seen by the `ureq` agent: either a
response carrying a final status code and a body read that may itself
fail (`into_string` on a malformed body), or a transport-level failure
(timeout, connection error). -/
inductive HttpResponse where
  | response (status : Nat) (body : Except String String)
  | transportFailure (msg : String)
deriving DecidableEq, Repr

/-- The network oracle: the outcome of the single request made for each
identifier. -/
def HttpEnv : Type := AdvInput → HttpResponse

/-- The `ureq` error type as matched by the downloader: `Status(code, _)`
for any HTTP status of 400 and above, `Transport` for everything below
the HTTP layer. -/
inductive UreqError where
  | Status (code : Nat)
  | Transport (msg : String)
deriving DecidableEq, Repr

/-- The display string of a `ureq` error, as produced by `err.to_string()`
in the source. -/
def UreqError.display : UreqError → String
  | .Status code => "status code " ++ toString code
  | .Transport m => m

/-- The `anyhow::Error` values produced by `fetch_inputs`: a wrapped
`ureq` error from `.call()`, or an io error from `.into_string()`, both
built with `anyhow::Error::msg`, which keeps the wrapped value intact. -/
inductive AnyhowError where
  | ureq (e : UreqError)
  | io (msg : String)
deriving DecidableEq, Repr

/-- Semantics of `agent.get(url).set("Cookie", ...).call()`: `ureq`
returns `Ok(response)` when the final status is below 400 and
`Err(Status(code, _))` when it is 400 or above; transport failures give
`Err(Transport(_))`. -/
def ureqCall : HttpResponse → Except UreqError (Except String String)
  | .response status body =>
      if 400 ≤ status then .error (.Status status) else .ok body
  | .transportFailure m => .error (.Transport m)

/-- The classification applied to one response in the loop of
`fetch_inputs` (src/api.rs lines 16-21):
`call().map_err(msg).and_then(|resp| resp.into_string().map_err(msg))`. -/
def classify (r : HttpResponse) : Except AnyhowError String :=
  match ureqCall r with
  | .error e => .error (.ureq e)
  | .ok (.ok s) => .ok s
  | .ok (.error m) => .error (.io m)

/-- The result pushed for one input by `fetch_inputs`: the classified
outcome of that input's single request. -/
def fetchOne (env : HttpEnv) (input : AdvInput) : Except AnyhowError String :=
  classify (env input)

/-- Externally visible events of a run, in order: an HTTP request with
its cookie header, a directory creation, a file write. -/
inductive Event where
  | request (url : String) (cookie : String)
  | mkdir (dir : List String)
  | write (p : List String)
deriving DecidableEq, Repr

/-- The accumulation loop of `fetch_inputs` (src/api.rs):
`let mut out = vec![]; for input in inputs { ... out.push(body); }`. -/
def fetchLoop (env : HttpEnv) (out : List (Except AnyhowError String)) :
    List AdvInput → List (Except AnyhowError String)
  | [] => out
  | input :: rest => fetchLoop env (out ++ [fetchOne env input]) rest

/-- src/api.rs `fetch_inputs`: builds the agent with 5s read/write
timeouts, formats the cookie `session=<token>`, then performs one
blocking call per input in submission order, pushing each classified
result.  Returns the per-input results together with the trace of the
requests it issued. -/
def fetch_inputs (env : HttpEnv) (inputs : List AdvInput)
    (session_token : String) :
    List (Except AnyhowError String) × List Event :=
  (fetchLoop env [] inputs,
   inputs.map (fun i => Event.request i.request_url ("session=" ++ session_token)))

/-- A filesystem model: the set of existing directories, an association
list of files where later entries shadow earlier ones, and the set of
directories whose creation fails (a permission-style fault oracle, fixed
for the run). -/
structure FS where
  dirs : List (List String)
  files : List (List String × String)
  brokenDirs : List (List String)
deriving DecidableEq, Repr

/-- Semantics of `fs::create_dir_all`: creates the directory and all of
its ancestors; existing directories are left alone (membership is what
matters here, duplicates are harmless).  Creation of a directory listed
in the fault oracle fails with an io error naming that path. -/
def FS.createDirAll (fs : FS) (d : List String) : Except (List String) FS :=
  if d ∈ fs.brokenDirs then .error d
  else .ok { fs with dirs := (List.range (d.length + 1)).map (fun k => d.take k) ++ fs.dirs }

/-- Current contents of the file at `p`, when it exists. -/
def FS.read (fs : FS) (p : List String) : Option String :=
  (fs.files.find? (fun e => e.1 == p)).map (fun e => e.2)

/-- Semantics of `fs::File::create(p)?.write_all(c)?`: fails when the
parent directory of `p` does not exist; otherwise truncates the file and
writes, so its contents become exactly `c`. -/
def FS.writeFile (fs : FS) (p : List String) (c : String) : Option FS :=
  if p.dropLast ∈ fs.dirs then some ⟨fs.dirs, (p, c) :: fs.files, fs.brokenDirs⟩
  else none

/-- The warning pushed for a 404 on day `d` (src/bin/yaadv.rs lines 34-40,
colour codes elided): the four `format!` fields joined by spaces. -/
def warn404 (d : Nat) : String :=
  "Error 404: Day " ++ toString d ++ " is either not unlocked yet or doesn\x27t exist"

/-- Error alternatives of the downloader and of `main`'s credential
precondition (all `anyhow` errors in the source). -/
inductive DownloadError where
  | noInput
  | noParent
  | mkdirFailure (d : List String)
  | fsFailure (p : List String)
  | unhandled (cause : String)
  | noToken
deriving DecidableEq, Repr

/-- The message carried by each downloader error: the `context` strings
and the `bail!` format of src/bin/yaadv.rs (and `main`'s token context,
with the source's spelling). -/
def DownloadError.message : DownloadError → String
  | .noInput => "no input file to download"
  | .noParent => "no parent folder exists"
  | .mkdirFailure _ => "Permission denied"
  | .fsFailure _ => "No such file or directory"
  | .unhandled cause =>
      "unhandled error while downloading input files!" ++ "\n" ++ cause
  | .noToken =>
      "No session token found!" ++ "\n" ++ "Please add a sesssion token first"

/-- The body of the for-loop of `download_inputs` (src/bin/yaadv.rs lines
22-51), positionally pairing each input with its fetched result: an `Ok`
body is written to the input's path (a create/write failure propagates
through `?` and aborts); an error that is `ureq::Error::Status(404, _)`
appends a warning to `out_err` and continues; any other status error
aborts through `bail!` with the error's display as cause; an error that
is not a `Status` error (a transport failure, or an io error from the
body read) does not match the `if let` and is silently skipped. -/
def downloadLoop (fs : FS) (out_err : List String) :
    List (AdvInput × Except AnyhowError String) →
    Except DownloadError (List String) × FS × List Event
  | [] => (.ok out_err, fs, [])
  | (input, resp) :: rest =>
    match resp with
    | .ok body =>
      match fs.writeFile input.path body with
      | none => (.error (.fsFailure input.path), fs, [])
      | some fs₂ =>
        let r := downloadLoop fs₂ out_err rest
        (r.1, r.2.1, Event.write input.path :: r.2.2)
    | .error err =>
      match err with
      | .ureq (.Status code) =>
        if code = 404 then
          downloadLoop fs (out_err ++ [warn404 input.day]) rest
        else
          (.error (.unhandled (UreqError.display (.Status code))), fs, [])
      | _ => downloadLoop fs out_err rest

/-- src/bin/yaadv.rs `download_inputs`: takes the first input — on an
empty batch the `context("no input file to download")?` inside the
argument of `create_dir_all` fails before any filesystem or network
activity — creates the parent directory of the first input's path (the
trailing `?` propagates a creation failure, aborting before any request
or write), calls `fetch_inputs` (which performs every request), then
runs the write/warn/abort loop over the positionally paired results. -/
def download_inputs (env : HttpEnv) (inputs : List AdvInput)
    (session_token : String) (fs : FS) :
    Except DownloadError (List String) × FS × List Event :=
  match inputs with
  | [] => (.error .noInput, fs, [])
  | first :: _ =>
    match fs.createDirAll first.path.dropLast with
    | .error d => (.error (.mkdirFailure d), fs, [])
    | .ok fs₁ =>
      let fetched := fetch_inputs env inputs session_token
      let r := downloadLoop fs₁ [] (inputs.zip fetched.1)
      (r.1, r.2.1, Event.mkdir first.path.dropLast :: (fetched.2 ++ r.2.2))

/-- The credential precondition of `main` (src/bin/yaadv.rs lines
126-131): `Secrets::load().session_token.context(...)?` fails when the
store holds no token, before `download_inputs` is entered; otherwise the
batch runs with the stored token. -/
def runBatch (env : HttpEnv) (inputs : List AdvInput)
    (cred : Option String) (fs : FS) :
    Except DownloadError (List String) × FS × List Event :=
  match cred with
  | none => (.error .noToken, fs, [])
  | some tok => download_inputs env inputs tok fs

/-- The warning contributed by one positionally paired item, when any:
exactly the 404 branch of the loop. -/
def softWarn (item : AdvInput × Except AnyhowError String) : Option String :=
  match item.2 with
  | .error (.ureq (.Status code)) =>
      if code = 404 then some (warn404 item.1.day) else none
  | _ => none

/-- The per-item condition under which the loop does not abort at that
item, relative to the (loop-invariant) set of directories: a success
needs its parent directory, a status error must be a 404, and every
other error is skipped. -/
def itemOk (dirs : List (List String)) (item : AdvInput × Except AnyhowError String) : Prop :=
  match item.2 with
  | .ok _ => item.1.path.dropLast ∈ dirs
  | .error (.ureq (.Status code)) => code = 404
  | .error _ => True

/-- Boolean form of the per-item non-abort condition: the loop proceeds
past an item exactly when its write succeeds (for a success) or it is
not a fatal status error. -/
def itemContinues (dirs : List (List String))
    (item : AdvInput × Except AnyhowError String) : Bool :=
  match item.2 with
  | .ok _ => decide (item.1.path.dropLast ∈ dirs)
  | .error (.ureq (.Status code)) => code == 404
  | .error _ => true

/-- The write event contributed by one positionally paired item, when
any: exactly the successful items produce a write, at their input's
path. -/
def writeOf (item : AdvInput × Except AnyhowError String) : Option Event :=
  match item.2 with
  | .ok _ => some (Event.write item.1.path)
  | .error _ => none

/-- The empty starting filesystem used by the concrete runs below. -/
def fs0 : FS := ⟨[], [], []⟩

/-- A filesystem on which creating day 1 of 2023's parent directory
fails (its path is in the fault oracle). -/
def fsBroken : FS := ⟨[], [], [["inputs", "2023", "1"]]⟩

/-- Oracle answering 404 to every request. -/
def envAll404 : HttpEnv := fun _ => HttpResponse.response 404 (Except.ok "")

/-- Oracle answering 200 with body "a" to every request. -/
def envAllOk : HttpEnv := fun _ => HttpResponse.response 200 (Except.ok "a")

/-- Oracle answering 200 with body "a" for day 1 and 404 for the rest. -/
def envOk404 : HttpEnv := fun i =>
  if i.day = 1 then HttpResponse.response 200 (Except.ok "a")
  else HttpResponse.response 404 (Except.ok "")

/-- Oracle answering 200 with body "b1" for day 1 and failing at the
transport level for the rest. -/
def envTransportSecond : HttpEnv := fun i =>
  if i.day = 1 then HttpResponse.response 200 (Except.ok "b1")
  else HttpResponse.transportFailure "timeout: connection timed out"

theorem fetchLoop_eq_map (env : HttpEnv) :
    ∀ (l : List AdvInput) (out : List (Except AnyhowError String)),
      fetchLoop env out l = out ++ l.map (fetchOne env) := by
  intro l
  induction l with
  | nil => intro out; simp [fetchLoop]
  | cons hd tl ih => intro out; simp [fetchLoop, ih]

theorem writeFile_dirs {fs fs₂ : FS} {p : List String} {c : String}
    (h : fs.writeFile p c = some fs₂) : fs₂.dirs = fs.dirs := by
  unfold FS.writeFile at h
  split at h
  · cases h; rfl
  · cases h

theorem writeFile_isSome {fs : FS} {p : List String} {c : String}
    (h : p.dropLast ∈ fs.dirs) :
    fs.writeFile p c = some ⟨fs.dirs, (p, c) :: fs.files, fs.brokenDirs⟩ := by
  unfold FS.writeFile
  simp [h]

theorem writeFile_isNone {fs : FS} {p : List String} {c : String}
    (h : p.dropLast ∉ fs.dirs) : fs.writeFile p c = none := by
  unfold FS.writeFile
  simp [h]

theorem downloadLoop_dirs (l : List (AdvInput × Except AnyhowError String)) :
    ∀ (fs : FS) (oe : List String),
      ((downloadLoop fs oe l).2.1).dirs = fs.dirs := by
  induction l with
  | nil => intro fs oe; rfl
  | cons hd tl ih =>
    intro fs oe
    obtain ⟨input, resp⟩ := hd
    cases resp with
    | ok body =>
      simp only [downloadLoop]
      cases h : fs.writeFile input.path body with
      | none => rfl
      | some fs₂ =>
        simpa [writeFile_dirs h] using ih fs₂ oe
    | error err =>
      cases err with
      | ureq e =>
        cases e with
        | Status code =>
          simp only [downloadLoop]
          by_cases hc : code = 404
          · simpa [hc] using ih fs (oe ++ [warn404 input.day])
          · simp [hc]
        | Transport m => simpa [downloadLoop] using ih fs oe
      | io m => simpa [downloadLoop] using ih fs oe

theorem downloadLoop_brokenDirs (l : List (AdvInput × Except AnyhowError String)) :
    ∀ (fs : FS) (oe : List String),
      ((downloadLoop fs oe l).2.1).brokenDirs = fs.brokenDirs := by
  induction l with
  | nil => intro fs oe; rfl
  | cons hd tl ih =>
    intro fs oe
    obtain ⟨input, resp⟩ := hd
    cases resp with
    | ok body =>
      simp only [downloadLoop]
      cases h : fs.writeFile input.path body with
      | none => rfl
      | some fs₂ =>
        have h2 : fs₂.brokenDirs = fs.brokenDirs := by
          unfold FS.writeFile at h
          split at h
          · cases h; rfl
          · cases h
        simpa [h2] using ih fs₂ oe
    | error err =>
      cases err with
      | ureq e =>
        cases e with
        | Status code =>
          simp only [downloadLoop]
          by_cases hc : code = 404
          · simpa [hc] using ih fs (oe ++ [warn404 input.day])
          · simp [hc]
        | Transport m => simpa [downloadLoop] using ih fs oe
      | io m => simpa [downloadLoop] using ih fs oe

theorem downloadLoop_trace (l : List (AdvInput × Except AnyhowError String)) :
    ∀ (fs : FS) (oe : List String),
      (downloadLoop fs oe l).2.2 =
        (l.takeWhile (itemContinues fs.dirs)).filterMap writeOf := by
  induction l with
  | nil => intro fs oe; rfl
  | cons hd tl ih =>
    intro fs oe
    obtain ⟨input, resp⟩ := hd
    cases resp with
    | ok body =>
      by_cases hmem : input.path.dropLast ∈ fs.dirs
      · have hw : fs.writeFile input.path body =
            some ⟨fs.dirs, (input.path, body) :: fs.files, fs.brokenDirs⟩ :=
          writeFile_isSome hmem
        simp only [downloadLoop, hw]
        rw [ih ⟨fs.dirs, (input.path, body) :: fs.files, fs.brokenDirs⟩ oe]
        simp [List.takeWhile_cons, List.filterMap_cons, itemContinues, writeOf, hmem]
      · have hw : fs.writeFile input.path body = none := writeFile_isNone hmem
        simp only [downloadLoop, hw]
        simp [List.takeWhile_cons, itemContinues, hmem]
    | error err =>
      cases err with
      | ureq e =>
        cases e with
        | Status code =>
          by_cases hc : code = 404
          · subst hc
            have hstep : downloadLoop fs oe
                ((input, Except.error (AnyhowError.ureq (UreqError.Status 404))) :: tl) =
                downloadLoop fs (oe ++ [warn404 input.day]) tl := rfl
            rw [hstep, ih fs (oe ++ [warn404 input.day])]
            simp [List.takeWhile_cons, List.filterMap_cons, itemContinues, writeOf]
          · simp [downloadLoop, hc, List.takeWhile_cons, itemContinues]
        | Transport m =>
          simp only [downloadLoop]
          rw [ih fs oe]
          simp [List.takeWhile_cons, List.filterMap_cons, itemContinues, writeOf]
      | io m =>
        simp only [downloadLoop]
        rw [ih fs oe]
        simp [List.takeWhile_cons, List.filterMap_cons, itemContinues, writeOf]

theorem writeFile_some_eq {fs fs₂ : FS} {p : List String} {c : String}
    (h : fs.writeFile p c = some fs₂) :
    fs₂ = ⟨fs.dirs, (p, c) :: fs.files, fs.brokenDirs⟩ := by
  unfold FS.writeFile at h
  split at h
  · cases h; rfl
  · cases h

theorem writeFile_some_mem {fs fs₂ : FS} {p : List String} {c : String}
    (h : fs.writeFile p c = some fs₂) : p.dropLast ∈ fs.dirs := by
  unfold FS.writeFile at h
  split at h
  · assumption
  · cases h

theorem itemOk_mono {dirs dirs₂ : List (List String)} (hsub : dirs ⊆ dirs₂) :
    ∀ item, itemOk dirs item → itemOk dirs₂ item := by
  rintro ⟨input, resp⟩ h
  cases resp with
  | ok b => exact hsub h
  | error err =>
    cases err with
    | ureq e =>
      cases e with
      | Status code => exact h
      | Transport m => trivial
    | io m => trivial

theorem createDirAll_ok_eq {fs fs₂ : FS} {d : List String}
    (h : fs.createDirAll d = .ok fs₂) :
    fs₂ = ⟨(List.range (d.length + 1)).map (fun k => d.take k) ++ fs.dirs,
      fs.files, fs.brokenDirs⟩ := by
  unfold FS.createDirAll at h
  split at h
  · cases h
  · cases h; rfl

theorem createDirAll_ok_not_broken {fs fs₂ : FS} {d : List String}
    (h : fs.createDirAll d = .ok fs₂) : d ∉ fs.brokenDirs := by
  unfold FS.createDirAll at h
  split at h
  · cases h
  · assumption

theorem createDirAll_of_not_broken {fs : FS} {d : List String}
    (h : d ∉ fs.brokenDirs) :
    fs.createDirAll d =
      .ok ⟨(List.range (d.length + 1)).map (fun k => d.take k) ++ fs.dirs,
        fs.files, fs.brokenDirs⟩ := by
  unfold FS.createDirAll
  simp [h]

theorem createDirAll_ok_self {fs fs₂ : FS} {d : List String}
    (h : fs.createDirAll d = .ok fs₂) : d ∈ fs₂.dirs := by
  rw [createDirAll_ok_eq h]
  refine List.mem_append.mpr (Or.inl ?_)
  exact List.mem_map.mpr ⟨d.length, by simp, by simp⟩

theorem createDirAll_ok_sub {fs fs₂ : FS} {d : List String}
    (h : fs.createDirAll d = .ok fs₂) : fs.dirs ⊆ fs₂.dirs := by
  rw [createDirAll_ok_eq h]
  intro x hx
  exact List.mem_append.mpr (Or.inr hx)

theorem createDirAll_ok_broken {fs fs₂ : FS} {d : List String}
    (h : fs.createDirAll d = .ok fs₂) : fs₂.brokenDirs = fs.brokenDirs := by
  rw [createDirAll_ok_eq h]

theorem downloadLoop_completes (l : List (AdvInput × Except AnyhowError String)) :
    ∀ (fs : FS) (oe : List String),
      (∀ item ∈ l, itemOk fs.dirs item) →
      (downloadLoop fs oe l).1 = .ok (oe ++ l.filterMap softWarn) := by
  induction l with
  | nil => intro fs oe _; simp [downloadLoop]
  | cons hd tl ih =>
    intro fs oe hall
    obtain ⟨input, resp⟩ := hd
    have hhd := hall _ (List.mem_cons_self _ _)
    have htl : ∀ item ∈ tl, itemOk fs.dirs item :=
      fun item hm => hall _ (List.mem_cons_of_mem _ hm)
    cases resp with
    | ok body =>
      have hw : fs.writeFile input.path body =
          some ⟨fs.dirs, (input.path, body) :: fs.files, fs.brokenDirs⟩ :=
        writeFile_isSome hhd
      have := ih ⟨fs.dirs, (input.path, body) :: fs.files, fs.brokenDirs⟩ oe htl
      simp only [downloadLoop, hw]
      simpa [List.filterMap_cons, softWarn] using this
    | error err =>
      cases err with
      | ureq e =>
        cases e with
        | Status code =>
          have hc : code = 404 := hhd
          subst hc
          have := ih fs (oe ++ [warn404 input.day]) htl
          simp only [downloadLoop, if_pos rfl]
          simpa [List.filterMap_cons, softWarn] using this
        | Transport m =>
          have := ih fs oe htl
          simpa [downloadLoop, List.filterMap_cons, softWarn] using this
      | io m =>
        have := ih fs oe htl
        simpa [downloadLoop, List.filterMap_cons, softWarn] using this

theorem downloadLoop_ok_items (l : List (AdvInput × Except AnyhowError String)) :
    ∀ (fs : FS) (oe : List String) (w : List String),
      (downloadLoop fs oe l).1 = .ok w →
      ∀ item ∈ l, itemOk fs.dirs item := by
  induction l with
  | nil => intro fs oe w _ item hm; cases hm
  | cons hd tl ih =>
    intro fs oe w hok item hm
    obtain ⟨input, resp⟩ := hd
    cases resp with
    | ok body =>
      cases hw : fs.writeFile input.path body with
      | none => simp [downloadLoop, hw] at hok
      | some fs₂ =>
        simp only [downloadLoop, hw] at hok
        rcases List.mem_cons.mp hm with rfl | hm2
        · exact writeFile_some_mem hw
        · have hd2 : fs₂.dirs = fs.dirs := writeFile_dirs hw
          have := ih fs₂ oe w hok item hm2
          exact hd2 ▸ this
    | error err =>
      cases err with
      | ureq e =>
        cases e with
        | Status code =>
          by_cases hc : code = 404
          · subst hc
            simp only [downloadLoop, if_pos rfl] at hok
            rcases List.mem_cons.mp hm with rfl | hm2
            · rfl
            · exact ih fs (oe ++ [warn404 input.day]) w hok item hm2
          · simp [downloadLoop, hc] at hok
        | Transport m =>
          simp only [downloadLoop] at hok
          rcases List.mem_cons.mp hm with rfl | hm2
          · trivial
          · exact ih fs oe w hok item hm2
      | io m =>
        simp only [downloadLoop] at hok
        rcases List.mem_cons.mp hm with rfl | hm2
        · trivial
        · exact ih fs oe w hok item hm2

theorem downloadLoop_ok_warns (l : List (AdvInput × Except AnyhowError String))
    (fs : FS) (oe w : List String)
    (hok : (downloadLoop fs oe l).1 = .ok w) :
    w = oe ++ l.filterMap softWarn := by
  have h := downloadLoop_completes l fs oe (downloadLoop_ok_items l fs oe w hok)
  rw [hok] at h
  exact Except.ok.inj h

theorem downloadLoop_no_fsFailure (l : List (AdvInput × Except AnyhowError String)) :
    ∀ (fs : FS) (oe : List String),
      (∀ item ∈ l, ∀ b, item.2 = Except.ok b → item.1.path.dropLast ∈ fs.dirs) →
      ∀ p, (downloadLoop fs oe l).1 ≠ .error (.fsFailure p) := by
  induction l with
  | nil => intro fs oe _ p h; simp [downloadLoop] at h
  | cons hd tl ih =>
    intro fs oe hall p
    obtain ⟨input, resp⟩ := hd
    have htl : ∀ item ∈ tl, ∀ b, item.2 = Except.ok b → item.1.path.dropLast ∈ fs.dirs :=
      fun item hm => hall _ (List.mem_cons_of_mem _ hm)
    cases resp with
    | ok body =>
      have hmem : input.path.dropLast ∈ fs.dirs :=
        hall _ (List.mem_cons_self _ _) body rfl
      have hw : fs.writeFile input.path body =
          some ⟨fs.dirs, (input.path, body) :: fs.files, fs.brokenDirs⟩ :=
        writeFile_isSome hmem
      simp only [downloadLoop, hw]
      exact ih ⟨fs.dirs, (input.path, body) :: fs.files, fs.brokenDirs⟩ oe htl p
    | error err =>
      cases err with
      | ureq e =>
        cases e with
        | Status code =>
          by_cases hc : code = 404
          · subst hc
            simp only [downloadLoop, if_pos rfl]
            exact ih fs (oe ++ [warn404 input.day]) htl p
          · simp [downloadLoop, hc]
        | Transport m =>
          simp only [downloadLoop]
          exact ih fs oe htl p
      | io m =>
        simp only [downloadLoop]
        exact ih fs oe htl p

theorem read_cons_ne {dirs broken : List (List String)}
    {files : List (List String × String)} {q p : List String} {c : String}
    (h : q ≠ p) :
    FS.read ⟨dirs, (q, c) :: files, broken⟩ p = FS.read ⟨dirs, files, broken⟩ p := by
  unfold FS.read
  rw [List.find?_cons_of_neg]
  simp [h]

theorem read_cons_self {dirs broken : List (List String)}
    {files : List (List String × String)} {p : List String} {c : String} :
    FS.read ⟨dirs, (p, c) :: files, broken⟩ p = some c := by
  unfold FS.read
  rw [List.find?_cons_of_pos] <;> simp

theorem downloadLoop_read_other (l : List (AdvInput × Except AnyhowError String)) :
    ∀ (fs : FS) (oe : List String) (p : List String),
      (∀ item ∈ l, item.1.path ≠ p) →
      ((downloadLoop fs oe l).2.1).read p = fs.read p := by
  induction l with
  | nil => intro fs oe p _; rfl
  | cons hd tl ih =>
    intro fs oe p hall
    obtain ⟨input, resp⟩ := hd
    have hhd : input.path ≠ p := hall _ (List.mem_cons_self _ _)
    have htl : ∀ item ∈ tl, item.1.path ≠ p :=
      fun item hm => hall _ (List.mem_cons_of_mem _ hm)
    cases resp with
    | ok body =>
      cases hw : fs.writeFile input.path body with
      | none => simp [downloadLoop, hw]
      | some fs₂ =>
        simp only [downloadLoop, hw]
        rw [ih fs₂ oe p htl, writeFile_some_eq hw]
        exact read_cons_ne hhd
    | error err =>
      cases err with
      | ureq e =>
        cases e with
        | Status code =>
          by_cases hc : code = 404
          · subst hc
            simp only [downloadLoop, if_pos rfl]
            exact ih fs (oe ++ [warn404 input.day]) p htl
          · simp [downloadLoop, hc]
        | Transport m =>
          simp only [downloadLoop]
          exact ih fs oe p htl
      | io m =>
        simp only [downloadLoop]
        exact ih fs oe p htl

theorem downloadLoop_read (l : List (AdvInput × Except AnyhowError String)) :
    ∀ (fs : FS) (oe : List String) (input : AdvInput) (body : String),
      (∀ item ∈ l, itemOk fs.dirs item) →
      (l.map (fun it => it.1.path)).Nodup →
      (input, Except.ok body) ∈ l →
      ((downloadLoop fs oe l).2.1).read input.path = some body := by
  induction l with
  | nil => intro fs oe input body _ _ hm; cases hm
  | cons hd tl ih =>
    intro fs oe input body hall hnd hm
    obtain ⟨i₀, r₀⟩ := hd
    have hhd := hall _ (List.mem_cons_self _ _)
    have htl : ∀ item ∈ tl, itemOk fs.dirs item :=
      fun item hmem => hall _ (List.mem_cons_of_mem _ hmem)
    rw [List.map_cons, List.nodup_cons] at hnd
    obtain ⟨hnotin, hndtl⟩ := hnd
    rcases List.mem_cons.mp hm with heq | hm2
    · -- the item itself is at the head
      obtain ⟨h1, h2⟩ := Prod.mk.injEq .. ▸ heq
      subst h1
      subst h2
      have hw : fs.writeFile input.path body =
          some ⟨fs.dirs, (input.path, body) :: fs.files, fs.brokenDirs⟩ :=
        writeFile_isSome hhd
      simp only [downloadLoop, hw]
      have hne : ∀ item ∈ tl, item.1.path ≠ input.path := by
        intro item hmem hcontra
        exact hnotin (hcontra ▸ List.mem_map.mpr ⟨item, hmem, rfl⟩)
      rw [downloadLoop_read_other tl _ oe input.path hne]
      exact read_cons_self
    · -- the item is in the tail
      cases r₀ with
      | ok b₀ =>
        have hw : fs.writeFile i₀.path b₀ =
            some ⟨fs.dirs, (i₀.path, b₀) :: fs.files, fs.brokenDirs⟩ :=
          writeFile_isSome hhd
        simp only [downloadLoop, hw]
        exact ih ⟨fs.dirs, (i₀.path, b₀) :: fs.files, fs.brokenDirs⟩ oe input body htl hndtl hm2
      | error err =>
        cases err with
        | ureq e =>
          cases e with
          | Status code =>
            have hc : code = 404 := hhd
            subst hc
            simp only [downloadLoop, if_pos rfl]
            exact ih fs (oe ++ [warn404 i₀.day]) input body htl hndtl hm2
          | Transport m =>
            simp only [downloadLoop]
            exact ih fs oe input body htl hndtl hm2
        | io m =>
          simp only [downloadLoop]
          exact ih fs oe input body htl hndtl hm2

theorem zip_map_self {α β : Type} (f : α → β) :
    ∀ (l : List α), l.zip (l.map f) = l.map (fun a => (a, f a)) := by
  intro l
  induction l with
  | nil => rfl
  | cons hd tl ih => simp [ih]

theorem downloadLoop_rerun (l : List (AdvInput × Except AnyhowError String))
    (fsA fsB : FS) (oe w : List String)
    (hnd : (l.map (fun it => it.1.path)).Nodup)
    (h1 : (downloadLoop fsA oe l).1 = .ok w)
    (hsub : fsA.dirs ⊆ fsB.dirs) :
    (downloadLoop fsB oe l).1 = .ok w ∧
    ∀ (input : AdvInput) (body : String), (input, Except.ok body) ∈ l →
      ((downloadLoop fsB oe l).2.1).read input.path = some body := by
  have hitems := downloadLoop_ok_items l fsA oe w h1
  have hitemsB : ∀ item ∈ l, itemOk fsB.dirs item :=
    fun item hm => itemOk_mono hsub item (hitems item hm)
  have hw := downloadLoop_ok_warns l fsA oe w h1
  constructor
  · rw [downloadLoop_completes l fsB oe hitemsB, hw]
  · intro input body hm
    exact downloadLoop_read l fsB oe input body hitemsB hnd hm

/-- C2: a 404 response for an identifier makes the download loop append
exactly one warning, mentioning that identifier's day, to the
accumulated list, write no file (the filesystem argument is passed on
unchanged), and continue with exactly the remaining identifiers: the 404
itself never aborts the batch. -/
theorem response404_warns_once_and_continues
    (b : Except String String) (input : AdvInput) (fs : FS)
    (out_err : List String)
    (rest : List (AdvInput × Except AnyhowError String)) :
    downloadLoop fs out_err ((input, classify (.response 404 b)) :: rest) =
      downloadLoop fs (out_err ++ [warn404 input.day]) rest := rfl

/-- C3: a non-404 error status (any final status that is at least 400 and
not 404) makes the download loop abort immediately through `bail!`: it
returns an error carrying the underlying `ureq` error's display, leaves
the filesystem exactly as it was (no file for this identifier), and does
not touch any of the remaining items (no write, no warning, no event for
any later identifier). -/
theorem response_error_status_aborts_batch
    (code : Nat) (b : Except String String) (input : AdvInput) (fs : FS)
    (out_err : List String)
    (rest : List (AdvInput × Except AnyhowError String))
    (h4 : 400 ≤ code) (hne : code ≠ 404) :
    downloadLoop fs out_err ((input, classify (.response code b)) :: rest) =
      (.error (.unhandled ("status code " ++ toString code)), fs, []) := by
  simp [classify, ureqCall, downloadLoop, h4, hne, UreqError.display]

/-- C3 witness: the abort theorem instantiated at status 500 for day 1 of
2023 on the empty filesystem. -/
theorem response_error_status_aborts_batch_witness :
    ((400 ≤ 500 ∧ (500 : Nat) ≠ 404)) ∧
    downloadLoop fs0 [] ((⟨1, 2023⟩, classify (.response 500 (.ok ""))) :: []) =
      (.error (.unhandled ("status code " ++ toString (500 : Nat))), fs0, []) :=
  ⟨⟨by decide, by decide⟩,
   response_error_status_aborts_batch 500 (.ok "") ⟨1, 2023⟩ fs0 [] []
     (by decide) (by decide)⟩

/-- C4: for every non-empty identifier list and every credential,
`fetch_inputs` returns one outcome per identifier in submission order:
the result has the same length as the input list, and its i-th element
is the classified outcome of the i-th identifier (nothing is dropped or
reordered). -/
theorem fetch_preserves_length_and_order (env : HttpEnv)
    (inputs : List AdvInput) (tok : String) (_hne : inputs ≠ []) :
    (fetch_inputs env inputs tok).1.length = inputs.length ∧
    ∀ (i : Nat) (h : i < inputs.length),
      (fetch_inputs env inputs tok).1[i]? = some (fetchOne env inputs[i]) := by
  constructor
  · simp [fetch_inputs, fetchLoop_eq_map]
  · intro i h
    simp [fetch_inputs, fetchLoop_eq_map, List.getElem?_eq_getElem h]

/-- C4 witness: the length part at a concrete one-element batch. -/
theorem fetch_preserves_length_and_order_witness :
    ([⟨1, 2023⟩] : List AdvInput) ≠ [] ∧
    (fetch_inputs envAll404 [⟨1, 2023⟩] "t").1.length = 1 :=
  ⟨by decide,
   (fetch_preserves_length_and_order envAll404 [⟨1, 2023⟩] "t" (by decide)).1⟩

/-- C9: credential non-interference.  Two runs that differ only in the
credential value, against the same per-identifier responses, produce
identical fetch results, identical downloader results (errors and
warnings alike), and identical filesystems; the token only ever reaches
the cookie header of the request events. -/
theorem credential_noninterference (env : HttpEnv) (inputs : List AdvInput)
    (fs : FS) (t₁ t₂ : String) :
    (fetch_inputs env inputs t₁).1 = (fetch_inputs env inputs t₂).1 ∧
    (download_inputs env inputs t₁ fs).1 = (download_inputs env inputs t₂ fs).1 ∧
    (download_inputs env inputs t₁ fs).2.1 = (download_inputs env inputs t₂ fs).2.1 := by
  refine ⟨rfl, ?_, ?_⟩
  all_goals
    cases inputs with
    | nil => rfl
    | cons f r =>
      cases hc : fs.createDirAll f.path.dropLast with
      | error d => simp [download_inputs, hc]
      | ok fs₁ => simp [download_inputs, fetch_inputs, hc]

/-- C10: on a completed batch the returned warnings are exactly the
soft-failure messages of the 404 items, taken positionally over the
input list in submission order — one warning per soft-failed identifier,
ordered as the identifiers were submitted. -/
theorem completed_batch_warning_order (env : HttpEnv) (inputs : List AdvInput)
    (tok : String) (fs : FS) (w : List String)
    (h : (download_inputs env inputs tok fs).1 = .ok w) :
    w = (inputs.zip (fetch_inputs env inputs tok).1).filterMap softWarn := by
  cases inputs with
  | nil => simp [download_inputs] at h
  | cons first rest =>
    cases hc : fs.createDirAll first.path.dropLast with
    | error d => simp [download_inputs, hc] at h
    | ok fs₁ =>
      simp only [download_inputs, hc] at h
      have h2 := downloadLoop_ok_warns
        ((first :: rest).zip (fetch_inputs env (first :: rest) tok).1)
        fs₁ [] w h
      simpa using h2

/-- C10 witness: a one-element all-404 batch completes with exactly its
soft warning. -/
theorem completed_batch_warning_order_witness :
    (download_inputs envAll404 [⟨1, 2023⟩] "t" fs0).1 = .ok [warn404 1] ∧
    [warn404 1] =
      (([⟨1, 2023⟩] : List AdvInput).zip
        (fetch_inputs envAll404 [⟨1, 2023⟩] "t").1).filterMap softWarn :=
  ⟨by decide,
   completed_batch_warning_order envAll404 [⟨1, 2023⟩] "t" fs0 [warn404 1] (by decide)⟩

/-- C1: the code's actual behaviour on a transport-level failure, against
the claim.  `fetch_inputs` does classify a transport failure as an error
(first conjunct), but in `download_inputs` that error does not match the
`if let ureq::Error::Status` pattern and is silently skipped: with day 1
answering 200 and day 2 failing at the transport level, the batch
returns `Ok` with an empty warning list — no error, no abort — and day
1's file is on disk while nothing records day 2's failure. -/
theorem transport_failure_silently_skipped :
    classify (HttpResponse.transportFailure "timeout: connection timed out") =
      .error (.ureq (.Transport "timeout: connection timed out")) ∧
    (download_inputs envTransportSecond [⟨1, 2023⟩, ⟨2, 2023⟩] "tok" fs0).1 =
      .ok [] ∧
    (download_inputs envTransportSecond [⟨1, 2023⟩, ⟨2, 2023⟩] "tok" fs0).2.1.read
      (AdvInput.path ⟨1, 2023⟩) = some "b1" ∧
    (download_inputs envTransportSecond [⟨1, 2023⟩, ⟨2, 2023⟩] "tok" fs0).2.1.read
      (AdvInput.path ⟨2, 2023⟩) = none := by
  refine ⟨rfl, rfl, ?_, ?_⟩ <;> decide

/-- C5 counterexample: in the run where day 1 answers 200 and day 2
answers 404, both day 1's write event and day 2's request event occur in
the trace, but day 1's write does NOT precede day 2's request — every
request is issued by `fetch_inputs` before the first write — refuting
the claim that each identifier's disk write happens before the next
identifier's network request. -/
theorem write_after_later_request_cex :
    Event.write (AdvInput.path ⟨1, 2023⟩) ∈
      (download_inputs envOk404 [⟨1, 2023⟩, ⟨2, 2023⟩] "tok" fs0).2.2 ∧
    Event.request (AdvInput.request_url ⟨2, 2023⟩) "session=tok" ∈
      (download_inputs envOk404 [⟨1, 2023⟩, ⟨2, 2023⟩] "tok" fs0).2.2 ∧
    ¬ ((download_inputs envOk404 [⟨1, 2023⟩, ⟨2, 2023⟩] "tok" fs0).2.2.indexOf
        (Event.write (AdvInput.path ⟨1, 2023⟩)) <
      (download_inputs envOk404 [⟨1, 2023⟩, ⟨2, 2023⟩] "tok" fs0).2.2.indexOf
        (Event.request (AdvInput.request_url ⟨2, 2023⟩) "session=tok")) := by
  refine ⟨?_, ?_, ?_⟩ <;> decide

/-- C5 (amended): execution is two strictly sequential phases rather than
an interleaving.  When the initial directory creation succeeds, the
trace of a non-empty batch is exactly: the directory creation, then
every identifier's network request in submission order (all issued by
`fetch_inputs`), and then the write phase — one write event per
successful item of the longest non-aborting prefix of the positionally
paired submission list, in submission order (`takeWhile` and `filterMap`
preserve the list order and cut at the first aborting item).  So each
identifier's disk write happens after every identifier's network
request, and a hard failure or a write failure aborts the remaining
writes only after all requests have already been issued. -/
theorem requests_all_precede_writes (env : HttpEnv) (tok : String)
    (fs fs₁ : FS) (first : AdvInput) (rest : List AdvInput)
    (hc : fs.createDirAll first.path.dropLast = .ok fs₁) :
    (download_inputs env (first :: rest) tok fs).2.2 =
      Event.mkdir first.path.dropLast ::
        ((first :: rest).map
          (fun i => Event.request i.request_url ("session=" ++ tok)) ++
         (((first :: rest).zip
            (fetch_inputs env (first :: rest) tok).1).takeWhile
              (itemContinues fs₁.dirs)).filterMap writeOf) := by
  simp only [download_inputs, hc]
  rw [downloadLoop_trace]
  rfl

/-- C5 (amended) witness: the trace-shape theorem at the concrete
200-then-404 run from the empty filesystem. -/
theorem requests_all_precede_writes_witness :
    fs0.createDirAll (AdvInput.path ⟨1, 2023⟩).dropLast =
      .ok ⟨[[], ["inputs"], ["inputs", "2023"], ["inputs", "2023", "1"]], [], []⟩ ∧
    (download_inputs envOk404 [⟨1, 2023⟩, ⟨2, 2023⟩] "tok" fs0).2.2 =
      Event.mkdir (AdvInput.path ⟨1, 2023⟩).dropLast ::
        (([⟨1, 2023⟩, ⟨2, 2023⟩] : List AdvInput).map
          (fun i => Event.request i.request_url ("session=" ++ "tok")) ++
         ((([⟨1, 2023⟩, ⟨2, 2023⟩] : List AdvInput).zip
            (fetch_inputs envOk404 [⟨1, 2023⟩, ⟨2, 2023⟩] "tok").1).takeWhile
              (itemContinues
                (FS.mk [[], ["inputs"], ["inputs", "2023"], ["inputs", "2023", "1"]]
                  [] []).dirs)).filterMap writeOf) :=
  ⟨by decide,
   requests_all_precede_writes envOk404 "tok" fs0
     ⟨[[], ["inputs"], ["inputs", "2023"], ["inputs", "2023", "1"]], [], []⟩
     ⟨1, 2023⟩ [⟨2, 2023⟩] (by decide)⟩

/-- C6 counterexample: an empty-string credential is treated as an
available credential: the batch does not fail with a precondition error
(it completes with day 1's soft warning), a network request is issued,
and the filesystem is changed (the output directory is created) —
refuting the claim that an empty credential fails before any network
call and before any file or directory is created. -/
theorem empty_token_reaches_network_cex :
    (runBatch envAll404 [⟨1, 2023⟩] (some "") fs0).1 = .ok [warn404 1] ∧
    Event.request (AdvInput.request_url ⟨1, 2023⟩) "session=" ∈
      (runBatch envAll404 [⟨1, 2023⟩] (some "") fs0).2.2 ∧
    (runBatch envAll404 [⟨1, 2023⟩] (some "") fs0).2.1 ≠ fs0 := by
  refine ⟨rfl, ?_, ?_⟩ <;> decide

/-- C6 (amended): when the credential store yields no token, or the
identifier list is empty, the batch fails with the corresponding
precondition error before any network call and before any file or
directory is created: the filesystem is returned unchanged and the event
trace is empty.  (An empty-string token, by contrast, counts as an
available credential.) -/
theorem missing_token_or_empty_batch_precondition (env : HttpEnv)
    (inputs : List AdvInput) (cred : Option String) (fs : FS)
    (h : cred = none ∨ inputs = []) :
    ((runBatch env inputs cred fs).1 = .error .noToken ∨
     (runBatch env inputs cred fs).1 = .error .noInput) ∧
    (runBatch env inputs cred fs).2.1 = fs ∧
    (runBatch env inputs cred fs).2.2 = [] := by
  rcases h with h | h
  · subst h
    exact ⟨Or.inl rfl, rfl, rfl⟩
  · subst h
    cases cred with
    | none => exact ⟨Or.inl rfl, rfl, rfl⟩
    | some tok => exact ⟨Or.inr rfl, rfl, rfl⟩

/-- C6 (amended) witness: the precondition theorem at an absent token. -/
theorem missing_token_or_empty_batch_precondition_witness :
    ((none : Option String) = none ∨ ([⟨1, 2023⟩] : List AdvInput) = []) ∧
    ((runBatch envAll404 [⟨1, 2023⟩] none fs0).1 = .error .noToken ∨
     (runBatch envAll404 [⟨1, 2023⟩] none fs0).1 = .error .noInput) :=
  ⟨Or.inl rfl,
   (missing_token_or_empty_batch_precondition envAll404 [⟨1, 2023⟩] none fs0
     (Or.inl rfl)).1⟩

/-- C7 counterexample: only the FIRST identifier's parent directory is
created.  With days 1 and 2 both fetching successfully (200, body "a"),
day 2's canonical path has a different parent, which was never created,
so day 2's write fails with a filesystem error, aborts the batch, and no
file for day 2 exists — refuting the claim that a write never fails
merely because its parent directory was not created. -/
theorem unshared_parent_write_fails_cex :
    fetchOne envAllOk ⟨2, 2023⟩ = .ok "a" ∧
    (download_inputs envAllOk [⟨1, 2023⟩, ⟨2, 2023⟩] "tok" fs0).1 =
      .error (.fsFailure (AdvInput.path ⟨2, 2023⟩)) ∧
    (download_inputs envAllOk [⟨1, 2023⟩, ⟨2, 2023⟩] "tok" fs0).2.1.read
      (AdvInput.path ⟨2, 2023⟩) = none := by
  refine ⟨rfl, rfl, ?_⟩
  decide

/-- C7 (amended): only the parent directory of the FIRST identifier's
path is created, before any write and before any request, and a
creation failure is a filesystem error that aborts the whole batch
immediately (second conjunct: the error is returned, the filesystem is
unchanged, and the trace is empty — no request, no write).  When
creation succeeds, every identifier whose path shares the first
identifier's parent can never fail a write for a missing parent
directory (first conjunct: no filesystem-failure error is possible);
an identifier whose parent differs from the first's is not protected. -/
theorem shared_parent_writes_never_fail (env : HttpEnv) (tok : String)
    (fs : FS) (first : AdvInput) (rest : List AdvInput) :
    ((∀ i ∈ first :: rest, i.path.dropLast = first.path.dropLast) →
      ∀ p, (download_inputs env (first :: rest) tok fs).1 ≠
        .error (.fsFailure p)) ∧
    (∀ d, fs.createDirAll first.path.dropLast = .error d →
      (download_inputs env (first :: rest) tok fs).1 =
        .error (.mkdirFailure d) ∧
      (download_inputs env (first :: rest) tok fs).2.1 = fs ∧
      (download_inputs env (first :: rest) tok fs).2.2 = []) := by
  constructor
  · intro hshare p
    cases hc : fs.createDirAll first.path.dropLast with
    | error d => simp [download_inputs, hc]
    | ok fs₁ =>
      simp only [download_inputs, hc]
      apply downloadLoop_no_fsFailure
      rintro ⟨i, r⟩ hm b hb
      have hmem : i ∈ first :: rest := (List.of_mem_zip hm).1
      rw [hshare i hmem]
      exact createDirAll_ok_self hc
  · intro d hc
    refine ⟨?_, ?_, ?_⟩ <;> simp [download_inputs, hc]

/-- C7 (amended) witness: the safety conjunct at a one-element batch
(where the parent-sharing hypothesis holds trivially), and the
creation-failure conjunct on the filesystem whose fault oracle breaks
that batch's parent directory. -/
theorem shared_parent_writes_never_fail_witness :
    ((∀ i ∈ ([⟨1, 2023⟩] : List AdvInput),
        i.path.dropLast = (AdvInput.path ⟨1, 2023⟩).dropLast) ∧
      (download_inputs envAllOk [⟨1, 2023⟩] "t" fs0).1 ≠
        .error (.fsFailure [])) ∧
    (fsBroken.createDirAll (AdvInput.path ⟨1, 2023⟩).dropLast =
        .error ((AdvInput.path ⟨1, 2023⟩).dropLast) ∧
      (download_inputs envAllOk [⟨1, 2023⟩] "t" fsBroken).1 =
        .error (.mkdirFailure ((AdvInput.path ⟨1, 2023⟩).dropLast))) :=
  ⟨⟨by decide,
    (shared_parent_writes_never_fail envAllOk "t" fs0 ⟨1, 2023⟩ []).1
      (by decide) []⟩,
   ⟨by decide,
    ((shared_parent_writes_never_fail envAllOk "t" fsBroken ⟨1, 2023⟩ []).2
      ((AdvInput.path ⟨1, 2023⟩).dropLast) (by decide)).1⟩⟩

/-- C8: re-running a batch that completed is idempotent on the
filesystem.  If a run over identifiers with pairwise distinct paths
completes with warnings `w`, then running the same batch again on the
resulting filesystem also completes with the same warnings, and for
every identifier whose fetch succeeds with some body, the file contents
after the second run are exactly that body — the write truncates, so
nothing is duplicated or appended. -/
theorem rerun_is_idempotent (env : HttpEnv) (tok : String) (fs : FS)
    (inputs : List AdvInput) (w : List String)
    (hnd : (inputs.map (fun i => i.path)).Nodup)
    (h1 : (download_inputs env inputs tok fs).1 = .ok w) :
    (download_inputs env inputs tok
        ((download_inputs env inputs tok fs).2.1)).1 = .ok w ∧
    ∀ input ∈ inputs, ∀ body, fetchOne env input = .ok body →
      ((download_inputs env inputs tok
          ((download_inputs env inputs tok fs).2.1)).2.1).read input.path =
        some body := by
  cases inputs with
  | nil => simp [download_inputs] at h1
  | cons first rest =>
    cases hc : fs.createDirAll first.path.dropLast with
    | error d => simp [download_inputs, hc] at h1
    | ok fs₁ =>
      simp only [download_inputs, hc] at h1 ⊢
      have hlen : (first :: rest).length ≤
          (fetch_inputs env (first :: rest) tok).1.length := by
        simp [fetch_inputs, fetchLoop_eq_map]
      have hmapfst : (((first :: rest).zip
          (fetch_inputs env (first :: rest) tok).1).map Prod.fst) = first :: rest :=
        List.map_fst_zip _ _ hlen
      have hnd2 : ((((first :: rest).zip
          (fetch_inputs env (first :: rest) tok).1).map
            (fun it => it.1.path))).Nodup := by
        have hcomp : (fun (it : AdvInput × Except AnyhowError String) => it.1.path) =
            (fun i => i.path) ∘ Prod.fst := rfl
        rw [hcomp, ← List.map_map, hmapfst]
        exact hnd
      have hnb2 : first.path.dropLast ∉
          ((downloadLoop fs₁ [] ((first :: rest).zip
            (fetch_inputs env (first :: rest) tok).1)).2.1).brokenDirs := by
        rw [downloadLoop_brokenDirs, createDirAll_ok_broken hc]
        exact createDirAll_ok_not_broken hc
      have hc2 := createDirAll_of_not_broken hnb2
      simp only [hc2]
      have hsub : fs₁.dirs ⊆
          ((List.range (first.path.dropLast.length + 1)).map
            (fun k => first.path.dropLast.take k) ++
           ((downloadLoop fs₁ [] ((first :: rest).zip
             (fetch_inputs env (first :: rest) tok).1)).2.1).dirs) := by
        intro x hx
        refine List.mem_append.mpr (Or.inr ?_)
        rw [downloadLoop_dirs]
        exact hx
      obtain ⟨hA, hB⟩ := downloadLoop_rerun
        ((first :: rest).zip (fetch_inputs env (first :: rest) tok).1)
        fs₁
        ⟨(List.range (first.path.dropLast.length + 1)).map
            (fun k => first.path.dropLast.take k) ++
          ((downloadLoop fs₁ [] ((first :: rest).zip
            (fetch_inputs env (first :: rest) tok).1)).2.1).dirs,
         ((downloadLoop fs₁ [] ((first :: rest).zip
            (fetch_inputs env (first :: rest) tok).1)).2.1).files,
         ((downloadLoop fs₁ [] ((first :: rest).zip
            (fetch_inputs env (first :: rest) tok).1)).2.1).brokenDirs⟩
        [] w hnd2 h1 hsub
      refine ⟨hA, ?_⟩
      intro input hm body hfo
      have hzmem : (input, fetchOne env input) ∈
          ((first :: rest).zip (fetch_inputs env (first :: rest) tok).1) := by
        have hfi : (fetch_inputs env (first :: rest) tok).1 =
            (first :: rest).map (fetchOne env) := by
          simp [fetch_inputs, fetchLoop_eq_map]
        rw [hfi, zip_map_self]
        exact List.mem_map.mpr ⟨input, hm, rfl⟩
      exact hB input body (hfo ▸ hzmem)

/-- C8 witness: a one-element always-200 batch, run twice from the empty
filesystem, completes again with no warnings. -/
theorem rerun_is_idempotent_witness :
    ((([⟨1, 2023⟩] : List AdvInput).map (fun i => i.path)).Nodup ∧
      (download_inputs envAllOk [⟨1, 2023⟩] "t" fs0).1 = .ok []) ∧
    (download_inputs envAllOk [⟨1, 2023⟩] "t"
        ((download_inputs envAllOk [⟨1, 2023⟩] "t" fs0).2.1)).1 = .ok [] :=
  ⟨⟨by decide, by decide⟩,
   (rerun_is_idempotent envAllOk "t" fs0 [⟨1, 2023⟩] [] (by decide) (by decide)).1⟩

end Yadv
